import Mathlib

/-!
Verification of the browser voice-chat client (`src/App.tsx` and the second
application variant `src/unnamed/part_000`) against its design specification.

The development shallowly embeds the pieces of the program the specification
talks about:

* the playback scheduler inlined in the `onmessage` callback
  (`App.tsx` lines 242-250, `part_000` lines 212-220): clock times, cursor
  and buffer durations are modelled as rationals;
* the session controller state (`App.tsx` lines 133-271): the React refs and
  state hooks become fields of an explicit `AppState` record, and the
  callbacks (`stopConversation`, `startConversation`, `onmessage`, `onerror`)
  become state-transition functions;
* the PCM encoder / audio decoder pair (`src/utils/audio`, a module of this
  repository that is not present under `src/`), modelled from the spec.
-/

namespace VoiceAgent

/-! ## Playback scheduler

`App.tsx` lines 242-250:

```
const currentTime = outputAudioContextRef.current.currentTime;
const startTime = Math.max(currentTime, nextStartTimeRef.current);
...
source.start(startTime);
nextStartTimeRef.current = startTime + audioBuffer.duration;
```

A scheduling call reads the output clock (`now`), reads the cursor
(`nextStartTimeRef`), starts the buffer at `max now cursor` and advances the
cursor past the buffer.  A whole session's worth of scheduling is a fold over
the list of `(clock-reading, duration)` pairs, in arrival order.
-/

/-- One scheduling call: given the output clock reading `now`, the current
cursor and the decoded buffer's `duration`, return the scheduled start time
and the updated cursor (`App.tsx` lines 242-250). -/
def scheduleStep (now cursor duration : ℚ) : ℚ × ℚ :=
  let startTime := max now cursor
  (startTime, startTime + duration)

/-- The `(startTime, duration)` pairs produced by scheduling a sequence of
buffers in arrival order; each element of `trace` is the pair
`(clock reading at that call, buffer duration)`. -/
def schedulePairs (cursor : ℚ) : List (ℚ × ℚ) → List (ℚ × ℚ)
  | [] => []
  | (now, d) :: rest => (max now cursor, d) :: schedulePairs (max now cursor + d) rest

/-- The successive cursor values after each scheduling call. -/
def scheduleCursors (cursor : ℚ) : List (ℚ × ℚ) → List ℚ
  | [] => []
  | (now, d) :: rest => (max now cursor + d) :: scheduleCursors (max now cursor + d) rest

/-- The cursor value after the whole sequence has been scheduled. -/
def finalCursor (cursor : ℚ) (trace : List (ℚ × ℚ)) : ℚ :=
  trace.foldl (fun c p => max p.1 c + p.2) cursor

theorem schedulePairs_nil (c : ℚ) : schedulePairs c [] = [] := rfl

theorem schedulePairs_cons (c now d : ℚ) (rest : List (ℚ × ℚ)) :
    schedulePairs c ((now, d) :: rest)
      = (max now c, d) :: schedulePairs (max now c + d) rest := rfl

theorem scheduleCursors_cons (c now d : ℚ) (rest : List (ℚ × ℚ)) :
    scheduleCursors c ((now, d) :: rest)
      = (max now c + d) :: scheduleCursors (max now c + d) rest := rfl

theorem finalCursor_cons (c now d : ℚ) (rest : List (ℚ × ℚ)) :
    finalCursor c ((now, d) :: rest) = finalCursor (max now c + d) rest := by
  simp [finalCursor, List.foldl]

/-- The first scheduled start time is at least the cursor the sequence
started from. -/
theorem schedulePairs_head_ge (c : ℚ) (trace : List (ℚ × ℚ)) :
    ∀ p ∈ (schedulePairs c trace).head?, c ≤ p.1 := by
  cases trace with
  | nil => simp [schedulePairs]
  | cons q rest =>
    obtain ⟨now, d⟩ := q
    simp [schedulePairs_cons, le_max_right]

/-- Buffers never overlap: each scheduled start is at or after the previous
start plus the previous duration, for any cursor and any trace. -/
theorem schedulePairs_chain (trace : List (ℚ × ℚ)) :
    ∀ c, List.Chain' (fun a b => a.1 + a.2 ≤ b.1) (schedulePairs c trace) := by
  induction trace with
  | nil => intro c; simp [schedulePairs]
  | cons q rest ih =>
    obtain ⟨now, d⟩ := q
    intro c
    rw [schedulePairs_cons, List.chain'_cons']
    exact ⟨fun b hb => schedulePairs_head_ge _ _ b hb, ih _⟩

/-- With nonnegative durations the cursor never moves backwards. -/
theorem scheduleCursors_chain (trace : List (ℚ × ℚ)) :
    ∀ c, (∀ p ∈ trace, 0 ≤ p.2) →
      List.Chain' (· ≤ ·) (c :: scheduleCursors c trace) := by
  induction trace with
  | nil => intro c _; simp [scheduleCursors]
  | cons q rest ih =>
    obtain ⟨now, d⟩ := q
    intro c h
    rw [scheduleCursors_cons]
    have h0 : 0 ≤ d := h (now, d) (by simp)
    have hrest : ∀ p ∈ rest, 0 ≤ p.2 := fun p hp => h p (by simp [hp])
    refine List.Chain'.cons ?_ (ih (max now c + d) hrest)
    have := le_max_right now c
    linarith

/-- C1: a scheduling call starts the buffer at `max now cursor`, sets the
cursor to that start time plus the buffer's duration, and (for nonnegative
durations) leaves the cursor at or after the clock reading taken by that
call — the clock's value at the moment the cursor was last read. -/
theorem scheduleStep_start_and_cursor (now cursor d : ℚ) (hd : 0 ≤ d) :
    (scheduleStep now cursor d).1 = max now cursor ∧
    (scheduleStep now cursor d).2 = (scheduleStep now cursor d).1 + d ∧
    now ≤ (scheduleStep now cursor d).2 := by
  refine ⟨rfl, rfl, ?_⟩
  show now ≤ max now cursor + d
  have := le_max_left now cursor
  linarith

/-- Witness for C1 at `now = 2`, `cursor = 3`, `d = 1/2`. -/
theorem scheduleStep_start_and_cursor_witness :
    (0 : ℚ) ≤ 1/2 ∧
    ((scheduleStep 2 3 (1/2)).1 = max 2 3 ∧
     (scheduleStep 2 3 (1/2)).2 = (scheduleStep 2 3 (1/2)).1 + 1/2 ∧
     (2 : ℚ) ≤ (scheduleStep 2 3 (1/2)).2) :=
  ⟨by norm_num, scheduleStep_start_and_cursor 2 3 (1/2) (by norm_num)⟩

/-- C2: for every trace of buffers with nonnegative durations, scheduled in
arrival order from any initial cursor, consecutive scheduled starts never
overlap (`start i + d i ≤ start (i+1)`) and the cursor is monotonically
non-decreasing across the sequence. -/
theorem scheduler_no_overlap_monotone (c₀ : ℚ) (trace : List (ℚ × ℚ))
    (hd : ∀ p ∈ trace, 0 ≤ p.2) :
    List.Chain' (fun a b => a.1 + a.2 ≤ b.1) (schedulePairs c₀ trace) ∧
    List.Chain' (· ≤ ·) (c₀ :: scheduleCursors c₀ trace) :=
  ⟨schedulePairs_chain trace c₀, scheduleCursors_chain trace c₀ hd⟩

/-- Witness for C2: three buffers, the third arriving after a clock jump
backwards relative to the cursor. -/
theorem scheduler_no_overlap_monotone_witness :
    (∀ p ∈ [((0 : ℚ), (1 : ℚ)), (5, 2), (3, 1)], 0 ≤ p.2) ∧
    (List.Chain' (fun a b => a.1 + a.2 ≤ b.1)
        (schedulePairs 0 [((0 : ℚ), (1 : ℚ)), (5, 2), (3, 1)]) ∧
     List.Chain' (· ≤ ·)
        ((0 : ℚ) :: scheduleCursors 0 [((0 : ℚ), (1 : ℚ)), (5, 2), (3, 1)])) :=
  ⟨by decide, scheduler_no_overlap_monotone 0 _ (by decide)⟩


/-- When every arrival happens no later than the cursor it meets, scheduling
is cursor-driven: the first start is the cursor itself, starts are
back-to-back, and the final cursor grows by exactly the sum of durations. -/
theorem schedule_cursor_driven (trace : List (ℚ × ℚ)) :
    ∀ c, (∀ p ∈ trace.head?, p.1 ≤ c) →
      List.Chain' (fun p q => q.1 < p.1 + p.2) trace →
      (∀ p ∈ (schedulePairs c trace).head?, p.1 = c) ∧
      List.Chain' (fun a b => b.1 = a.1 + a.2) (schedulePairs c trace) ∧
      finalCursor c trace = c + (trace.map Prod.snd).sum := by
  induction trace with
  | nil => intro c _ _; simp [schedulePairs, finalCursor]
  | cons q rest ih =>
    obtain ⟨now, d⟩ := q
    intro c hhead hpace
    have hnow : now ≤ c := hhead (now, d) (by simp)
    have hmax : max now c = c := max_eq_right hnow
    have hresthead : ∀ p ∈ rest.head?, p.1 ≤ c + d := by
      intro p hp
      have hlt : p.1 < now + d := by
        cases rest with
        | nil => simp at hp
        | cons r rest' =>
          simp only [List.head?_cons, Option.mem_def, Option.some.injEq] at hp
          exact hp ▸ (List.chain'_cons.mp hpace).1
      linarith
    obtain ⟨ihhead, ihchain, ihfinal⟩ := ih (c + d) hresthead hpace.tail
    refine ⟨?_, ?_, ?_⟩
    · rw [schedulePairs_cons, hmax]
      intro p hp
      simp only [List.head?_cons, Option.mem_def, Option.some.injEq] at hp
      rw [← hp]
    · rw [schedulePairs_cons, hmax, List.chain'_cons']
      exact ⟨fun b hb => ihhead b hb, ihchain⟩
    · rw [finalCursor_cons, hmax, ihfinal]
      simp [add_assoc]

/-- C7: if buffers keep pace with consumption — each arrival's clock reading
is less than the previous arrival's clock reading plus the previous buffer's
duration — and the cursor starts at or before the first arrival's clock
reading (fresh session), then the first buffer starts exactly at its arrival
clock time, every later buffer starts exactly when the previous one ends
(continuous playback, so the last buffer finishes at the first start plus the
sum of all durations), and the final cursor equals the first arrival's clock
time plus the sum of all durations — the completion time, with no drift. -/
theorem scheduler_keeps_pace_no_drift (c₀ now₁ d₁ : ℚ) (rest : List (ℚ × ℚ))
    (hc : c₀ ≤ now₁)
    (hpace : List.Chain' (fun p q => q.1 < p.1 + p.2) ((now₁, d₁) :: rest)) :
    (∀ p ∈ (schedulePairs c₀ ((now₁, d₁) :: rest)).head?, p.1 = now₁) ∧
    List.Chain' (fun a b => b.1 = a.1 + a.2) (schedulePairs c₀ ((now₁, d₁) :: rest)) ∧
    finalCursor c₀ ((now₁, d₁) :: rest)
      = now₁ + (((now₁, d₁) :: rest).map Prod.snd).sum := by
  have hmax : max now₁ c₀ = now₁ := max_eq_left hc
  have hresthead : ∀ p ∈ rest.head?, p.1 ≤ now₁ + d₁ := by
    intro p hp
    have hlt : p.1 < now₁ + d₁ := by
      cases rest with
      | nil => simp at hp
      | cons r rest' =>
        simp only [List.head?_cons, Option.mem_def, Option.some.injEq] at hp
        exact hp ▸ (List.chain'_cons.mp hpace).1
    linarith
  obtain ⟨ihhead, ihchain, ihfinal⟩ :=
    schedule_cursor_driven rest (now₁ + d₁) hresthead hpace.tail
  refine ⟨?_, ?_, ?_⟩
  · rw [schedulePairs_cons, hmax]
    intro p hp
    simp only [List.head?_cons, Option.mem_def, Option.some.injEq] at hp
    rw [← hp]
  · rw [schedulePairs_cons, hmax, List.chain'_cons']
    exact ⟨fun b hb => ihhead b hb, ihchain⟩
  · rw [finalCursor_cons, hmax, ihfinal]
    simp [add_assoc]

/-- Witness for C7: buffers of duration 1 arriving at clock times 0, 1/2 and
5/4, each gap smaller than the preceding duration, from a fresh cursor 0. -/
theorem scheduler_keeps_pace_no_drift_witness :
    ((0 : ℚ) ≤ 0 ∧
     List.Chain' (fun p q : ℚ × ℚ => q.1 < p.1 + p.2)
        [((0 : ℚ), (1 : ℚ)), (1/2, 1), (5/4, 1)]) ∧
    ((∀ p ∈ (schedulePairs 0 [((0 : ℚ), (1 : ℚ)), (1/2, 1), (5/4, 1)]).head?,
        p.1 = 0) ∧
     List.Chain' (fun a b => b.1 = a.1 + a.2)
        (schedulePairs 0 [((0 : ℚ), (1 : ℚ)), (1/2, 1), (5/4, 1)]) ∧
     finalCursor 0 [((0 : ℚ), (1 : ℚ)), (1/2, 1), (5/4, 1)]
        = 0 + (([((0 : ℚ), (1 : ℚ)), (1/2, 1), (5/4, 1)]).map Prod.snd).sum) :=
  ⟨⟨le_refl 0, by norm_num [List.chain'_cons]⟩,
   scheduler_keeps_pace_no_drift 0 0 1 [(1/2, 1), (5/4, 1)] (le_refl 0)
     (by norm_num [List.chain'_cons])⟩

/-! ## Session controller

`App.tsx` lines 133-271 / `part_000` lines 94-241.  The React refs and state
hooks of the `App` component become fields of one record; the `useCallback`
handlers become state-transition functions.  External resources that the
teardown nulls out immediately (the session handle, the microphone stream and
the two processing nodes) are `Option Unit`; the two audio clocks keep their
state because `stopConversation` closes them but never clears their refs.
Actions performed on external resources are reported in a `TeardownEffects`
record so that they stay observable after the refs are nulled. -/

inductive AgentStatus
  | Idle
  | Listening
  | Thinking
  | Speaking
  | Error
  deriving DecidableEq

/-- An `AudioContext`: its sample rate and whether it has been closed. -/
structure AudioClock where
  closed : Bool
  rate : ℕ
  deriving DecidableEq

/-- The refs and state hooks of the `App` component (`App.tsx` lines
134-145). -/
structure AppState where
  isSessionActive : Bool
  agentStatus : AgentStatus
  session : Option Unit
  micStream : Option Unit
  audioContext : Option AudioClock
  scriptProcessor : Option Unit
  mediaStreamSource : Option Unit
  outputAudioContext : Option AudioClock
  analyserNode : Option Unit
  nextStartTime : ℚ
  deriving DecidableEq

/-- The external actions a run of `stopConversation` performed. -/
structure TeardownEffects where
  closedSession : Bool
  stoppedMicTracks : Bool
  disconnectedScriptProcessor : Bool
  disconnectedMediaStreamSource : Bool
  closedInputClock : Bool
  closedOutputClock : Bool
  deriving DecidableEq

/-- `stopConversation` (`App.tsx` lines 154-181): close the session handle
and null its ref; stop the microphone tracks and null the ref; disconnect
both processing nodes and null their refs; close each audio clock that is
present and not already closed (their refs are kept, as in the source);
then set `isSessionActive` to `false`, the status to `Idle` and the cursor
to `0`.  Every step is guarded only by the presence of its own ref. -/
def stopConversation (s : AppState) : AppState × TeardownEffects :=
  ({ isSessionActive := false
     agentStatus := .Idle
     session := none
     micStream := none
     audioContext := s.audioContext.map fun c => { c with closed := true }
     scriptProcessor := none
     mediaStreamSource := none
     outputAudioContext := s.outputAudioContext.map fun c => { c with closed := true }
     analyserNode := s.analyserNode
     nextStartTime := 0 },
   { closedSession := s.session.isSome
     stoppedMicTracks := s.micStream.isSome
     disconnectedScriptProcessor := s.scriptProcessor.isSome
     disconnectedMediaStreamSource := s.mediaStreamSource.isSome
     closedInputClock := s.audioContext.elim false fun c => !c.closed
     closedOutputClock := s.outputAudioContext.elim false fun c => !c.closed })

/-- `startConversation` (`App.tsx` lines 189-271), with the outcomes of its
two awaits as parameters: `micGranted` is whether `getUserMedia` resolves,
`connectOk` whether the live-connect promise resolves.  The `try` body first
sets `Listening`/active, then acquires the microphone, creates the 16 kHz
input clock and the 24 kHz output clock, resets the cursor, creates the
analyser, and connects; the `onopen` callback wires the media-stream source
and the script processor.  The `catch` sets `Error` and deactivates the
session without releasing anything. -/
def startConversation (s : AppState) (micGranted connectOk : Bool) : AppState :=
  let s1 := { s with agentStatus := .Listening, isSessionActive := true }
  if !micGranted then
    { s1 with agentStatus := .Error, isSessionActive := false }
  else
    let s2 := { s1 with
      micStream := some ()
      audioContext := some { closed := false, rate := 16000 }
      outputAudioContext := some { closed := false, rate := 24000 }
      nextStartTime := 0
      analyserNode := some () }
    if connectOk then
      { s2 with
        mediaStreamSource := some ()
        scriptProcessor := some ()
        session := some () }
    else
      { s2 with agentStatus := .Error, isSessionActive := false }

/-- An inbound transcription fragment. -/
structure Transcription where
  isFinal : Bool
  deriving DecidableEq

/-- The parts of a `LiveServerMessage` the handlers inspect. -/
structure ServerMessage where
  inputTranscription : Option Transcription
  turnComplete : Bool
  audioData : Option Unit
  deriving DecidableEq

/-- The status part of the `onmessage` handler of `part_000` (lines
193-204): a partial input transcription sets `Listening`, a final one sets
`Thinking`, and a turn-complete signal then sets `Listening`. -/
def onMessageStatusV1 (status : AgentStatus) (m : ServerMessage) : AgentStatus :=
  let s1 :=
    match m.inputTranscription with
    | some t => if t.isFinal then .Thinking else .Listening
    | none => status
  if m.turnComplete then .Listening else s1

/-- The status part of the `onmessage` handler of `App.tsx` (lines 231-234):
any input transcription or turn-complete signal sets `Listening`. -/
def onMessageStatusV2 (status : AgentStatus) (m : ServerMessage) : AgentStatus :=
  if m.inputTranscription.isSome || m.turnComplete then .Listening else status

/-- The synchronous prefix of the audio branch of `onmessage` (`App.tsx`
lines 236-240): if the message carries inline audio and the output-clock and
analyser refs are non-null, set `Speaking` and begin the asynchronous
decode.  The Bool reports whether a decode was begun. -/
def onMessageAudioBegin (s : AppState) (m : ServerMessage) : AppState × Bool :=
  if m.audioData.isSome && s.outputAudioContext.isSome && s.analyserNode.isSome then
    ({ s with agentStatus := .Speaking }, true)
  else (s, false)

/-- The continuation running after `await decodeAudioData` (`App.tsx` lines
242-250): re-read the output-clock and analyser refs (a `TypeError`,
modelled as `none`, if either were null — neither is ever nulled), take the
clock reading, create a source, connect it to the analyser, call
`source.start` at `max now cursor` and advance the cursor.  The Bool reports
that `source.start` was called. -/
def onMessageAudioFinish (s : AppState) (clockNow duration : ℚ) :
    Option (AppState × Bool) :=
  match s.outputAudioContext, s.analyserNode with
  | some _, some _ =>
      let startTime := max clockNow s.nextStartTime
      some ({ s with nextStartTime := startTime + duration }, true)
  | _, _ => none

/-- The `onerror` callback (`App.tsx` lines 253-257): log, set `Error`, then
call `stopConversation`. -/
def onError (s : AppState) : AppState × TeardownEffects :=
  stopConversation { s with agentStatus := .Error }

/-- A representative mid-session state: session open, microphone live, both
clocks open, processing and analyser nodes present, cursor at 3. -/
def activeState : AppState :=
  { isSessionActive := true
    agentStatus := .Speaking
    session := some ()
    micStream := some ()
    audioContext := some { closed := false, rate := 16000 }
    scriptProcessor := some ()
    mediaStreamSource := some ()
    outputAudioContext := some { closed := false, rate := 24000 }
    analyserNode := some ()
    nextStartTime := 3 }

/-- A message carrying only inline audio. -/
def audioMessage : ServerMessage :=
  { inputTranscription := none, turnComplete := false, audioData := some () }

/-- C9: on any state, `stopConversation` leaves the session inactive with
status `Idle` and cursor `0`, every audio clock still referenced is closed,
and each teardown step is attempted independently: each external action is
performed exactly when its own resource is present, no matter which other
resources are absent. -/
theorem stopConversation_spec (s : AppState) :
    (stopConversation s).1.isSessionActive = false ∧
    (stopConversation s).1.agentStatus = AgentStatus.Idle ∧
    (stopConversation s).1.nextStartTime = 0 ∧
    (stopConversation s).1.audioContext.all (fun c => c.closed) = true ∧
    (stopConversation s).1.outputAudioContext.all (fun c => c.closed) = true ∧
    (stopConversation s).1.session = none ∧
    (stopConversation s).1.micStream = none ∧
    (stopConversation s).1.scriptProcessor = none ∧
    (stopConversation s).1.mediaStreamSource = none ∧
    (stopConversation s).2.closedSession = s.session.isSome ∧
    (stopConversation s).2.stoppedMicTracks = s.micStream.isSome ∧
    (stopConversation s).2.disconnectedScriptProcessor = s.scriptProcessor.isSome ∧
    (stopConversation s).2.disconnectedMediaStreamSource = s.mediaStreamSource.isSome := by
  obtain ⟨act, st, ses, mic, ac, sp, ms, oc, an, nst⟩ := s
  cases ac <;> cases oc <;> simp [stopConversation, Option.all]

/-- C10: calling `stopConversation` when every resource ref is null performs
no external action, leaves the state at inactive/`Idle`/cursor `0` with all
refs still null, and a second call returns exactly the same result as the
first: calling it twice is calling it once. -/
theorem stopConversation_idempotent_on_null (s : AppState)
    (hses : s.session = none) (hmic : s.micStream = none)
    (hac : s.audioContext = none) (hsp : s.scriptProcessor = none)
    (hms : s.mediaStreamSource = none) (hoc : s.outputAudioContext = none)
    (han : s.analyserNode = none) :
    (stopConversation s).1 =
      { isSessionActive := false, agentStatus := .Idle, session := none,
        micStream := none, audioContext := none, scriptProcessor := none,
        mediaStreamSource := none, outputAudioContext := none,
        analyserNode := none, nextStartTime := 0 } ∧
    (stopConversation s).2 =
      { closedSession := false, stoppedMicTracks := false,
        disconnectedScriptProcessor := false,
        disconnectedMediaStreamSource := false,
        closedInputClock := false, closedOutputClock := false } ∧
    stopConversation (stopConversation s).1 = stopConversation s := by
  obtain ⟨act, st, ses, mic, ac, sp, ms, oc, an, nst⟩ := s
  simp only at hses hmic hac hsp hms hoc han
  subst hses hmic hac hsp hms hoc han
  simp [stopConversation]

/-- Witness for C10 from a state that is mid-conversation in every
non-resource respect but holds no resources. -/
theorem stopConversation_idempotent_on_null_witness :
    (let s : AppState :=
      { isSessionActive := true, agentStatus := .Speaking, session := none,
        micStream := none, audioContext := none, scriptProcessor := none,
        mediaStreamSource := none, outputAudioContext := none,
        analyserNode := none, nextStartTime := 7 }
     (stopConversation s).1 =
      { isSessionActive := false, agentStatus := .Idle, session := none,
        micStream := none, audioContext := none, scriptProcessor := none,
        mediaStreamSource := none, outputAudioContext := none,
        analyserNode := none, nextStartTime := 0 } ∧
     (stopConversation s).2 =
      { closedSession := false, stoppedMicTracks := false,
        disconnectedScriptProcessor := false,
        disconnectedMediaStreamSource := false,
        closedInputClock := false, closedOutputClock := false } ∧
     stopConversation (stopConversation s).1 = stopConversation s) :=
  stopConversation_idempotent_on_null _ rfl rfl rfl rfl rfl rfl rfl

/-- C8: if `startConversation` fails at the microphone-permission await, the
status becomes `Error`, the session is inactive, and — when no clock or
stream was open beforehand (the refs a fresh or properly stopped app holds)
— no clock or stream is open afterwards: the failure happens before any
resource is created. -/
theorem startConversation_mic_denied (s : AppState) (connectOk : Bool)
    (hses : s.session = none) (hmic : s.micStream = none)
    (hac : s.audioContext.all (fun c => c.closed) = true)
    (hoc : s.outputAudioContext.all (fun c => c.closed) = true) :
    (startConversation s false connectOk).agentStatus = AgentStatus.Error ∧
    (startConversation s false connectOk).isSessionActive = false ∧
    (startConversation s false connectOk).session = none ∧
    (startConversation s false connectOk).micStream = none ∧
    (startConversation s false connectOk).audioContext.all (fun c => c.closed) = true ∧
    (startConversation s false connectOk).outputAudioContext.all (fun c => c.closed) = true := by
  refine ⟨rfl, rfl, hses, hmic, hac, hoc⟩

/-- Witness for C8 from the initial app state. -/
theorem startConversation_mic_denied_witness :
    (let s : AppState :=
      { isSessionActive := false, agentStatus := .Idle, session := none,
        micStream := none, audioContext := none, scriptProcessor := none,
        mediaStreamSource := none, outputAudioContext := none,
        analyserNode := none, nextStartTime := 0 }
     (startConversation s false false).agentStatus = AgentStatus.Error ∧
     (startConversation s false false).isSessionActive = false ∧
     (startConversation s false false).session = none ∧
     (startConversation s false false).micStream = none ∧
     (startConversation s false false).audioContext.all (fun c => c.closed) = true ∧
     (startConversation s false false).outputAudioContext.all (fun c => c.closed) = true) :=
  startConversation_mic_denied _ false rfl rfl rfl rfl

/-- C6 counterexample: on a concrete mid-session state the `onerror` handler
ends with status `Idle`, not `Error` — it sets `Error` first and then calls
`stopConversation`, whose final `setAgentStatus(AgentStatus.Idle)` overwrites
it, so the user-visible status after the handler does not reflect `Error`. -/
theorem onError_final_status_not_error :
    (onError activeState).1.agentStatus = AgentStatus.Idle ∧
    AgentStatus.Idle ≠ AgentStatus.Error :=
  ⟨rfl, by decide⟩

/-- C6 amended: a stream error sets the `Error` status and then forces a
full teardown (`onError` is exactly `stopConversation` after setting
`Error`); after the handler completes the session is inactive, every clock
still referenced is closed and each held resource was released — but the
teardown's own final step resets the status, so it is `Idle`, not `Error`. -/
theorem onError_teardown (s : AppState) :
    onError s = stopConversation { s with agentStatus := AgentStatus.Error } ∧
    (onError s).1.isSessionActive = false ∧
    (onError s).1.agentStatus = AgentStatus.Idle ∧
    (onError s).1.audioContext.all (fun c => c.closed) = true ∧
    (onError s).1.outputAudioContext.all (fun c => c.closed) = true ∧
    (onError s).2.closedSession = s.session.isSome ∧
    (onError s).2.stoppedMicTracks = s.micStream.isSome := by
  obtain ⟨act, st, ses, mic, ac, sp, ms, oc, an, nst⟩ := s
  cases ac <;> cases oc <;> simp [onError, stopConversation, Option.all]

/-- C5 counterexample: in the `App.tsx` variant of the handler, a final
input transcription (without a turn-complete flag) leaves the status at
`Listening`; it does not become `Thinking` as the claim requires of every
final transcription event. -/
theorem final_transcription_not_thinking :
    onMessageStatusV2 AgentStatus.Listening
        { inputTranscription := some { isFinal := true }, turnComplete := false,
          audioData := none }
      = AgentStatus.Listening ∧
    AgentStatus.Listening ≠ AgentStatus.Thinking :=
  ⟨rfl, by decide⟩

/-- C5 amended: for a message carrying an input transcription and no
turn-complete flag, the `part_000` handler sets `Listening` on a partial
transcription and `Thinking` on a final one, while the `App.tsx` handler
sets `Listening` regardless of finality. -/
theorem transcription_status (st : AgentStatus) (m : ServerMessage)
    (t : Transcription) (hm : m.inputTranscription = some t)
    (htc : m.turnComplete = false) :
    onMessageStatusV1 st m
      = (if t.isFinal then AgentStatus.Thinking else AgentStatus.Listening) ∧
    onMessageStatusV2 st m = AgentStatus.Listening := by
  simp [onMessageStatusV1, onMessageStatusV2, hm, htc]

/-- Witness for C5's amended claim: a final transcription message. -/
theorem transcription_status_witness :
    (({ inputTranscription := some { isFinal := true }, turnComplete := false,
        audioData := none } : ServerMessage).inputTranscription
        = some { isFinal := true } ∧
     ({ inputTranscription := some { isFinal := true }, turnComplete := false,
        audioData := none } : ServerMessage).turnComplete = false) ∧
    (onMessageStatusV1 AgentStatus.Listening
        { inputTranscription := some { isFinal := true }, turnComplete := false,
          audioData := none }
      = (if ({ isFinal := true } : Transcription).isFinal then AgentStatus.Thinking
         else AgentStatus.Listening) ∧
     onMessageStatusV2 AgentStatus.Listening
        { inputTranscription := some { isFinal := true }, turnComplete := false,
          audioData := none }
      = AgentStatus.Listening) :=
  ⟨⟨rfl, rfl⟩, transcription_status AgentStatus.Listening _ _ rfl rfl⟩

/-- C3, the failing run: from `activeState` the audio branch of `onmessage`
passes its guard and begins a decode; `stopConversation` runs while the
decode is in flight, closing the output clock and resetting the cursor to
`0`; the decode continuation then still finds the output-clock and analyser
refs non-null — teardown never clears them — so instead of being skipped it
calls `source.start` on the closed clock and advances the cursor to
`max 5 0 + 1/10 = 51/10 ≠ 0`. -/
theorem stop_during_decode_schedules_anyway :
    (onMessageAudioBegin activeState audioMessage).2 = true ∧
    (stopConversation (onMessageAudioBegin activeState audioMessage).1).1.nextStartTime = 0 ∧
    (stopConversation
        (onMessageAudioBegin activeState audioMessage).1).1.outputAudioContext.all
        (fun c => c.closed) = true ∧
    ((onMessageAudioFinish
        (stopConversation (onMessageAudioBegin activeState audioMessage).1).1
        5 (1/10)).map fun r => (r.2, r.1.nextStartTime))
      = some (true, 51/10) := by
  refine ⟨rfl, rfl, rfl, ?_⟩
  simp only [onMessageAudioBegin, onMessageAudioFinish, stopConversation,
    activeState, audioMessage, Option.map]
  norm_num

/-! ## PCM encoder / audio decoder

`App.tsx` imports `decode`, `decodeAudioData` and `createBlob` from
`./utils/audio`, a module of this repository that is not present under
`src/`.  The definitions below are therefore modelled from the spec (§4.3
and §3): samples are rationals standing for the float samples. -/

/-- Modelled from the spec: the per-sample half of the missing
`src/utils/audio` `createBlob` — "clamps/scales each [sample] to the signed
16-bit integer range": clamp into `[-1, 1]`, scale by `2^15`, take the
integer part, clamp to the largest int16. -/
def encodeSample (x : ℚ) : ℤ :=
  min 32767 ⌊max (-1) (min 1 x) * 32768⌋

/-- Modelled from the spec: the per-sample half of the missing
`src/utils/audio` `decodeAudioData` — the "inverse of the above": scale the
16-bit integer back into `[-1, 1]`. -/
def decodeSample (n : ℤ) : ℚ := (n : ℚ) / 32768

/-- Modelled from the spec: "packs little-endian" — one 16-bit integer as
its two's-complement little-endian byte pair. -/
def int16ToBytesLE (n : ℤ) : List ℕ :=
  let u := (n % 65536).toNat
  [u % 256, u / 256]

/-- Modelled from the spec: read back one little-endian two's-complement
16-bit integer from its byte pair. -/
def bytesToInt16LE (b0 b1 : ℕ) : ℤ :=
  let u := b0 + 256 * b1
  if u < 32768 then (u : ℤ) else (u : ℤ) - 65536

/-- Modelled from the spec: pack a whole int16 frame little-endian. -/
def packInt16LE : List ℤ → List ℕ
  | [] => []
  | n :: rest => int16ToBytesLE n ++ packInt16LE rest

/-- Modelled from the spec: unpack a little-endian byte stream as int16s. -/
def unpackInt16LE : List ℕ → List ℤ
  | b0 :: b1 :: rest => bytesToInt16LE b0 b1 :: unpackInt16LE rest
  | _ => []

/-- Modelled from the spec: the base64 alphabet, for "base64-encodes". -/
def b64Alphabet : List Char :=
  ['A', 'B', 'C', 'D', 'E', 'F', 'G', 'H', 'I', 'J', 'K', 'L', 'M',
   'N', 'O', 'P', 'Q', 'R', 'S', 'T', 'U', 'V', 'W', 'X', 'Y', 'Z',
   'a', 'b', 'c', 'd', 'e', 'f', 'g', 'h', 'i', 'j', 'k', 'l', 'm',
   'n', 'o', 'p', 'q', 'r', 's', 't', 'u', 'v', 'w', 'x', 'y', 'z',
   '0', '1', '2', '3', '4', '5', '6', '7', '8', '9', '+', '/']

/-- Modelled from the spec: the character encoding one six-bit group. -/
def sextetChar (n : ℕ) : Char := b64Alphabet.getD n '='

/-- Modelled from the spec: the six-bit group a base64 character encodes. -/
def charSextet (c : Char) : ℕ := b64Alphabet.indexOf c

/-- Modelled from the spec: standard base64 encoding of a byte list, with
`=` padding. -/
def b64EncodeBytes : List ℕ → List Char
  | b0 :: b1 :: b2 :: rest =>
      let n := b0 * 65536 + b1 * 256 + b2
      sextetChar (n / 262144) :: sextetChar (n / 4096 % 64) ::
        sextetChar (n / 64 % 64) :: sextetChar (n % 64) :: b64EncodeBytes rest
  | [b0, b1] =>
      let n := b0 * 65536 + b1 * 256
      [sextetChar (n / 262144), sextetChar (n / 4096 % 64),
       sextetChar (n / 64 % 64), '=']
  | [b0] =>
      let n := b0 * 65536
      [sextetChar (n / 262144), sextetChar (n / 4096 % 64), '=', '=']
  | [] => []

/-- Modelled from the spec: standard base64 decoding back to bytes. -/
def b64DecodeChars : List Char → List ℕ
  | c0 :: c1 :: c2 :: c3 :: rest =>
      let s0 := charSextet c0
      let s1 := charSextet c1
      if c2 = '=' then [s0 * 4 + s1 / 16]
      else
        let s2 := charSextet c2
        if c3 = '=' then [s0 * 4 + s1 / 16, s1 % 16 * 16 + s2 / 4]
        else
          let s3 := charSextet c3
          (s0 * 4 + s1 / 16) :: (s1 % 16 * 16 + s2 / 4) :: (s2 % 4 * 64 + s3) ::
            b64DecodeChars rest
  | _ => []

/-- Modelled from the spec: the missing `src/utils/audio` `createBlob` —
clamp/scale the float frame to int16, pack little-endian, base64-encode and
tag with the 16 kHz PCM descriptor; the result is the `(data, mimeType)`
pair sent on the outbound stream. -/
def createBlob (samples : List ℚ) : String × String :=
  (String.mk (b64EncodeBytes (packInt16LE (samples.map encodeSample))),
   "audio/pcm;rate=16000")

/-- Modelled from the spec: the missing `src/utils/audio` `decode` —
base64-decode an inbound payload string to raw bytes. -/
def decode (payload : String) : List ℕ := b64DecodeChars payload.data

/-- A decoded buffer: float samples plus channel count, sample rate and
duration (§3, "Decoded Buffer"). -/
structure DecodedBuffer where
  channelData : List ℚ
  sampleRate : ℕ
  channels : ℕ
  duration : ℚ
  deriving DecidableEq

/-- Modelled from the spec: the missing `src/utils/audio` `decodeAudioData`
— read the raw bytes as little-endian int16, scale each back to a float
sample, and build a playable buffer at the declared sample rate and channel
count. -/
def decodeAudioData (bytes : List ℕ) (sampleRate channels : ℕ) : DecodedBuffer :=
  let samples := (unpackInt16LE bytes).map decodeSample
  { channelData := samples
    sampleRate := sampleRate
    channels := channels
    duration := (samples.length : ℚ) / ((channels : ℚ) * (sampleRate : ℚ)) }

theorem charSextet_sextetChar : ∀ n < 64, charSextet (sextetChar n) = n := by
  decide

theorem sextetChar_ne_pad : ∀ n < 64, sextetChar n ≠ '=' := by
  decide

/-- Base64 decoding inverts base64 encoding on byte lists. -/
theorem b64_roundtrip : ∀ l : List ℕ, (∀ b ∈ l, b < 256) →
    b64DecodeChars (b64EncodeBytes l) = l
  | [], _ => rfl
  | [b0], h => by
      have hb0 : b0 < 256 := h b0 (by simp)
      have h1 : b0 * 65536 / 262144 < 64 := by omega
      have h2 : b0 * 65536 / 4096 % 64 < 64 := by omega
      simp only [b64EncodeBytes, b64DecodeChars, if_pos trivial]
      rw [charSextet_sextetChar _ h1, charSextet_sextetChar _ h2]
      simp only [List.cons.injEq, and_true]
      omega
  | [b0, b1], h => by
      have hb0 : b0 < 256 := h b0 (by simp)
      have hb1 : b1 < 256 := h b1 (by simp)
      have h1 : (b0 * 65536 + b1 * 256) / 262144 < 64 := by omega
      have h2 : (b0 * 65536 + b1 * 256) / 4096 % 64 < 64 := by omega
      have h3 : (b0 * 65536 + b1 * 256) / 64 % 64 < 64 := by omega
      simp only [b64EncodeBytes, b64DecodeChars]
      rw [if_neg (sextetChar_ne_pad _ h3)]
      simp only [if_pos trivial]
      rw [charSextet_sextetChar _ h1, charSextet_sextetChar _ h2,
        charSextet_sextetChar _ h3]
      simp only [List.cons.injEq, and_true]
      omega
  | b0 :: b1 :: b2 :: rest, h => by
      have hb0 : b0 < 256 := h b0 (by simp)
      have hb1 : b1 < 256 := h b1 (by simp)
      have hb2 : b2 < 256 := h b2 (by simp)
      have ih := b64_roundtrip rest fun b hb => h b (by simp [hb])
      have h1 : (b0 * 65536 + b1 * 256 + b2) / 262144 < 64 := by omega
      have h2 : (b0 * 65536 + b1 * 256 + b2) / 4096 % 64 < 64 := by omega
      have h3 : (b0 * 65536 + b1 * 256 + b2) / 64 % 64 < 64 := by omega
      have h4 : (b0 * 65536 + b1 * 256 + b2) % 64 < 64 := by omega
      simp only [b64EncodeBytes, b64DecodeChars]
      rw [if_neg (sextetChar_ne_pad _ h3), if_neg (sextetChar_ne_pad _ h4),
        charSextet_sextetChar _ h1, charSextet_sextetChar _ h2,
        charSextet_sextetChar _ h3, charSextet_sextetChar _ h4, ih]
      simp only [List.cons.injEq, and_true]
      omega

/-- Reading back the little-endian byte pair of an in-range int16 returns
it. -/
theorem bytesToInt16LE_int16 (n : ℤ) (h1 : -32768 ≤ n) (h2 : n ≤ 32767) :
    bytesToInt16LE ((n % 65536).toNat % 256) ((n % 65536).toNat / 256) = n := by
  simp only [bytesToInt16LE]
  split <;> push_cast <;> omega

theorem int16_bytes_lt (n : ℤ) : ∀ b ∈ int16ToBytesLE n, b < 256 := by
  simp only [int16ToBytesLE, List.mem_cons, List.not_mem_nil, or_false]
  rintro b (rfl | rfl) <;> omega

theorem packInt16LE_bytes_lt : ∀ l : List ℤ, ∀ b ∈ packInt16LE l, b < 256
  | [] => by simp [packInt16LE]
  | n :: rest => by
      intro b hb
      simp only [packInt16LE, List.mem_append] at hb
      rcases hb with hb | hb
      · exact int16_bytes_lt n b hb
      · exact packInt16LE_bytes_lt rest b hb

/-- Little-endian unpacking inverts packing on int16 frames. -/
theorem unpack_pack : ∀ l : List ℤ, (∀ n ∈ l, -32768 ≤ n ∧ n ≤ 32767) →
    unpackInt16LE (packInt16LE l) = l
  | [], _ => rfl
  | n :: rest, h => by
      have hn := h n (by simp)
      have ih := unpack_pack rest fun m hm => h m (by simp [hm])
      simp only [packInt16LE, int16ToBytesLE, List.cons_append, List.nil_append,
        unpackInt16LE, ih, List.cons.injEq, and_true]
      exact ⟨bytesToInt16LE_int16 n hn.1 hn.2, by simpa using ih⟩

/-- Every encoded sample lies in the signed 16-bit range. -/
theorem encodeSample_bounds (x : ℚ) :
    -32768 ≤ encodeSample x ∧ encodeSample x ≤ 32767 := by
  constructor
  · unfold encodeSample
    refine le_min (by norm_num) ?_
    rw [Int.le_floor]
    have h1 : (-1 : ℚ) ≤ max (-1) (min 1 x) := le_max_left _ _
    push_cast
    nlinarith
  · exact min_le_left _ _

/-- One quantization step: decoding an encoded in-range sample lands within
`1/32768` of the original. -/
theorem decodeSample_encodeSample (x : ℚ) (h1 : -1 ≤ x) (h2 : x ≤ 1) :
    |decodeSample (encodeSample x) - x| ≤ 1 / 32768 := by
  have hclamp : max (-1) (min 1 x) = x := by
    rw [min_eq_right h2, max_eq_right h1]
  unfold encodeSample decodeSample
  rw [hclamp]
  rcases le_or_lt (⌊x * 32768⌋) 32767 with hle | hlt
  · rw [min_eq_right hle]
    have hf1 : (⌊x * 32768⌋ : ℚ) ≤ x * 32768 := Int.floor_le _
    have hf2 : x * 32768 - 1 < ⌊x * 32768⌋ := Int.sub_one_lt_floor _
    rw [abs_le]
    constructor <;> [linarith; linarith]
  · have hfloorle : ⌊x * 32768⌋ ≤ 32768 := by
      have hx : x * 32768 ≤ 32768 := by linarith
      calc ⌊x * 32768⌋ ≤ ⌊(32768 : ℚ)⌋ := Int.floor_le_floor hx
        _ = 32768 := by norm_num
    have heq : ⌊x * 32768⌋ = 32768 := le_antisymm hfloorle hlt
    have hx1 : 1 ≤ x := by
      have hf := Int.floor_le (x * 32768)
      rw [heq] at hf
      push_cast at hf
      linarith
    have hx : x = 1 := le_antisymm h2 hx1
    subst hx
    rw [min_eq_left hlt.le]
    rw [abs_le]
    constructor <;> norm_num

theorem zip_map_self {α β : Type} (f : α → β) :
    ∀ l : List α, (l.map f).zip l = l.map fun x => (f x, x)
  | [] => rfl
  | a :: l => by simp [zip_map_self f l]

/-- C4: for a frame of samples in `[-1, 1]`, encoding with `createBlob`
(clamp/scale to int16, pack little-endian, base64) and decoding the payload
with `decode` and `decodeAudioData` yields a buffer of the same length whose
every sample is within one 16-bit quantization step (`1/32768`) of the
original. -/
theorem createBlob_decode_roundtrip (samples : List ℚ)
    (h : ∀ x ∈ samples, -1 ≤ x ∧ x ≤ 1) :
    (decodeAudioData (decode (createBlob samples).1) 24000 1).channelData.length
      = samples.length ∧
    ∀ p ∈ ((decodeAudioData (decode (createBlob samples).1) 24000
        1).channelData).zip samples, |p.1 - p.2| ≤ 1 / 32768 := by
  have hdecode : decode (createBlob samples).1
      = packInt16LE (samples.map encodeSample) :=
    b64_roundtrip _ (packInt16LE_bytes_lt _)
  have hunpack : unpackInt16LE (packInt16LE (samples.map encodeSample))
      = samples.map encodeSample := by
    refine unpack_pack _ ?_
    intro n hn
    simp only [List.mem_map] at hn
    obtain ⟨x, _, rfl⟩ := hn
    exact encodeSample_bounds x
  have hchan : (decodeAudioData (decode (createBlob samples).1) 24000
      1).channelData = samples.map fun x => decodeSample (encodeSample x) := by
    simp only [decodeAudioData, hdecode, hunpack, List.map_map]
    rfl
  constructor
  · rw [hchan, List.length_map]
  · intro p hp
    rw [hchan, zip_map_self] at hp
    simp only [List.mem_map] at hp
    obtain ⟨x, hx, rfl⟩ := hp
    exact decodeSample_encodeSample x (h x hx).1 (h x hx).2

/-- Witness for C4 on the frame `[1/2, -1/4, 1]`. -/
theorem createBlob_decode_roundtrip_witness :
    (∀ x ∈ [(1/2 : ℚ), -1/4, 1], -1 ≤ x ∧ x ≤ 1) ∧
    ((decodeAudioData (decode (createBlob [(1/2 : ℚ), -1/4, 1]).1) 24000
        1).channelData.length = ([(1/2 : ℚ), -1/4, 1]).length ∧
     ∀ p ∈ ((decodeAudioData (decode (createBlob [(1/2 : ℚ), -1/4, 1]).1) 24000
        1).channelData).zip [(1/2 : ℚ), -1/4, 1], |p.1 - p.2| ≤ 1 / 32768) :=
  ⟨by norm_num, createBlob_decode_roundtrip _ (by norm_num)⟩

end VoiceAgent
